import Mathlib

/-!
# A verification of the `gitar` fretboard model

Shallow embedding of the crate's sources (`src/note.rs`, `src/guitar.rs`,
`src/main.rs`).  A `Note` is its single `usize` field `value`, modelled as
`Nat`; an `Interval` is its `usize` semitone count; Rust strings become
`List Char` (for parsing) or `String` (for rendering); Rust iterators and
loops become structural recursion; fallible operations return `Option`.
The `usize` range bound is not modelled: every integer the program
manipulates on its intended inputs is tiny.
-/

/-! ## Pitch arithmetic (src/note.rs) -/

/-- `impl Add<Interval> for Note`: `self.value + interval.semitones`. -/
def noteAddInterval (v s : Nat) : Nat := v + s

/-- `impl Sub<Interval> for Note` computes `self.value - interval.semitones`,
an unchecked `usize` subtraction.  When `semitones > value` the Rust
subtraction produces no value: it panics in a debug build and wraps modulo
2^64 in release; that underflowing case is made explicit here as `none`.
The source has no `DomainError` (or any error channel) for it. -/
def noteSubInterval (v s : Nat) : Option Nat :=
  if s ≤ v then some (v - s) else none

/-- `impl Sub for Note`: `match self.value.cmp(&other.value)` yielding the
interval between the two pitches. -/
def noteSubNote (a b : Nat) : Nat :=
  match compare a b with
  | .gt => a - b
  | .lt => b - a
  | .eq => 0

/-! ## The lazy ascent (src/note.rs, `NoteIter`) -/

/-- The state of `NoteIter`: the current note value and the `first` flag. -/
structure NoteIter where
  note : Nat
  first : Bool

/-- `impl Iterator for NoteIter`: the original note on the first call,
afterwards increment then yield. -/
def NoteIter.next (it : NoteIter) : Nat × NoteIter :=
  if it.first then (it.note, ⟨it.note, false⟩)
  else (it.note + 1, ⟨it.note + 1, false⟩)

/-- `iterator.take(n).collect::<Vec<_>>()` for a `NoteIter` (which never
ends, so exactly `n` elements are produced). -/
def NoteIter.takeList (it : NoteIter) : Nat → List Nat
  | 0 => []
  | n + 1 =>
    let (v, it2) := it.next
    v :: it2.takeList n

/-- `Note::into_iter`: a fresh cursor starting at the note. -/
def noteIntoIter (v : Nat) : NoteIter := ⟨v, true⟩

/-! ## Parsing (src/note.rs, `FromStr for Note`) -/

/-- The `alt` table of `Note::from_str`: the nom `tag`s in source order,
each with its pitch-class value. -/
def noteTags : List (List Char × Nat) :=
  [(['C'], 0), (['D', 'b'], 1), (['D'], 2), (['E', 'b'], 3), (['E'], 4), (['F'], 5),
   (['G', 'b'], 6), (['G'], 7), (['A', 'b'], 8), (['A'], 9), (['B', 'b'], 10), (['B'], 11)]

/-- `alt((map(tag("C"), ..), map(tag("Db"), ..), ...))`: the first tag in
table order that the input starts with; on success the remainder of the
input and the tag's value. -/
def altNoteName (s : List Char) : Option (List Char × Nat) :=
  noteTags.findSome? (fun t =>
    if s.take t.1.length = t.1 then some (s.drop t.1.length, t.2) else none)

/-- The value of one decimal digit, `none` for a non-digit. -/
def digitVal (c : Char) : Option Nat :=
  if '0' ≤ c ∧ c ≤ '9' then some (c.toNat - '0'.toNat) else none

/-- Accumulate decimal digits; fails on the first non-digit. -/
def digitsVal : List Char → Nat → Option Nat
  | [], acc => some acc
  | c :: cs, acc =>
    match digitVal c with
    | some d => digitsVal cs (acc * 10 + d)
    | none => none

/-- `usize::from_str`: an optional leading `'+'` then one or more decimal
digits (a `'-'` is rejected by the unsigned parse; so is an empty input). -/
def usizeFromStr : List Char → Option Nat
  | [] => none
  | '+' :: cs => if cs = [] then none else digitsVal cs 0
  | c :: cs => digitsVal (c :: cs) 0

/-- The octave step of `Note::from_str`:
`if s.is_empty() { 0 } else { usize::from_str(s)? }`. -/
def octavePart (s : List Char) : Option Nat :=
  if s = [] then some 0 else usizeFromStr s

/-- `Note::from_str` over the characters of the input: match a name with
`alt`, then the octave, then `Self::new(name + octave * 12)`. -/
def noteFromStr (s : List Char) : Option Nat :=
  match altNoteName s with
  | none => none
  | some (rest, name) =>
    match octavePart rest with
    | none => none
    | some octave => some (name + octave * 12)

/-- The specification's name rule, stated independently of the `alt` order:
among the twelve tokens, those the input starts with, and of these the one
of greatest length (longest-prefix match, so "Db" binds before "D"). -/
def longestNoteName (s : List Char) : Option (List Char × Nat) :=
  match (noteTags.filter (fun t => decide (s.take t.1.length = t.1))).foldl
      (fun best t =>
        match best with
        | none => some t
        | some b => if b.1.length < t.1.length then some t else some b) none with
  | none => none
  | some t => some (s.drop t.1.length, t.2)

/-- The specification's parse: `<name><octave?>` with the name matched by
longest prefix and the optional remainder a valid non-negative decimal
integer (as the unsigned Rust integer grammar accepts it). -/
def specNoteParse (s : List Char) : Option Nat :=
  match longestNoteName s with
  | none => none
  | some (rest, name) =>
    match octavePart rest with
    | none => none
    | some octave => some (name + octave * 12)

/-! ## Display (src/note.rs, `fmt::Display for Note`) -/

/-- The pitch-class name table of `Note`'s `Display` (`value % 12`); the
final case is the source's `unreachable!()` arm. -/
def noteNameChars (m : Nat) : List Char :=
  match m with
  | 0 => ['C'] | 1 => ['D', 'b'] | 2 => ['D'] | 3 => ['E', 'b'] | 4 => ['E'] | 5 => ['F']
  | 6 => ['G', 'b'] | 7 => ['G'] | 8 => ['A', 'b'] | 9 => ['A'] | 10 => ['B', 'b']
  | 11 => ['B'] | _ => []

/-- `Note`'s default (non-alternate) `Display`: `<name><octave>` with
`octave = value / 12` written in decimal. -/
def noteDisplay (v : Nat) : List Char :=
  noteNameChars (v % 12) ++ Nat.toDigits 10 (v / 12)

/-! ## Strings and the guitar (src/guitar.rs) -/

/-- `GuitarString::new`: the first `num_frets + 1` elements of the open
note's iterator, so that fret 0 is the open string. -/
def GuitarString.new (openNote numFrets : Nat) : List Nat :=
  (noteIntoIter openNote).takeList (numFrets + 1)

/-- `Guitar::new`: the tuning reversed, one string per open note. -/
def Guitar.new (numFrets : Nat) (tuning : List Nat) : List (List Nat) :=
  tuning.reverse.map (fun openNote => GuitarString.new openNote numFrets)

/-- The inner loop of `Guitar::locations`: scan one string's frets in
order, pushing `(string_number, fret_idx)` for each fret equal to `note`. -/
def locationsFrets (frets : List Nat) (note : Nat) (stringNumber fretIdx : Nat) :
    List (Nat × Nat) :=
  match frets with
  | [] => []
  | fr :: rest =>
    (if fr = note then [(stringNumber, fretIdx)] else []) ++
      locationsFrets rest note stringNumber (fretIdx + 1)

/-- The outer loop of `Guitar::locations`: `stringIdx` is the 0-based
enumeration index, the pushed string number is `string_idx + 1`. -/
def locationsStrings (strings : List (List Nat)) (note : Nat) (stringIdx : Nat) :
    List (Nat × Nat) :=
  match strings with
  | [] => []
  | st :: rest =>
    locationsFrets st note (stringIdx + 1) 0 ++ locationsStrings rest note (stringIdx + 1)

/-- `Guitar::locations`. -/
def Guitar.locations (strings : List (List Nat)) (note : Nat) : List (Nat × Nat) :=
  locationsStrings strings note 0

/-! ## Standard tuning (src/guitar.rs) and the CLI default (src/main.rs) -/

/-- The note-name enum referenced by `standard_tuning`; its declaration
(in the crate's lib.rs) is not among the repository's files. -/
inductive NoteName
  | C | Db | D | Eb | E | F | Gb | G | Ab | A | Bb | B

/-- The index of a note name in the pitch-class table. -/
def NoteName.index : NoteName → Nat
  | .C => 0 | .Db => 1 | .D => 2 | .Eb => 3 | .E => 4 | .F => 5
  | .Gb => 6 | .G => 7 | .Ab => 8 | .A => 9 | .Bb => 10 | .B => 11

/-- Modelled from the spec: the `Note::new(NoteName, octave)` constructor
called by `standard_tuning` is declared outside the files under src/ (the
crate's lib.rs is absent); per the spec's pitch-class table, the pitch with
name `n` and octave `o` has value `index(n) + 12 * o`. -/
def Note.ofName (n : NoteName) (octave : Nat) : Nat := n.index + 12 * octave

/-- `standard_tuning`: E2 A2 D3 G3 B3 E4, in ascending pitch order. -/
def standardTuning : List Nat :=
  [Note.ofName .E 2, Note.ofName .A 2, Note.ofName .D 3,
   Note.ofName .G 3, Note.ofName .B 3, Note.ofName .E 4]

/-- `main`, `Find` arm: `tuning.unwrap_or(standard_tuning())` — the tuning
the CLI uses, `none` when `--tuning` is absent. -/
def mainTuning (tuning : Option (List Nat)) : List Nat :=
  tuning.getD standardTuning

/-! ## The diagram renderer (src/guitar.rs, `Display for FretDiagram`) -/

/-- The three diagram sizes. -/
inductive Size
  | small | medium | large

/-- `highest_fret`:
`self.locations.iter().fold(5, |acc, fbl| max(fbl.fret_number, acc))`. -/
def highestFret (locations : List (Nat × Nat)) : Nat :=
  locations.foldl (fun acc fbl => max fbl.2 acc) 5

/-- One cell: the labelled-`continue` scan over `locations` writes `'*'`
on the first location with this fret and string, else `'|'` after the
loop. -/
def cellChar (locations : List (Nat × Nat)) (fret string : Nat) : Char :=
  if locations.any (fun loc => loc.2 = fret && loc.1 = string) then '*' else '|'

/-- The six cell symbols of one fret row, `for string in (1..=6).rev()`. -/
def rowSymbols (locations : List (Nat × Nat)) (fret : Nat) : List Char :=
  ((List.range' 1 6).reverse).map (fun string => cellChar locations fret string)

/-- The `Size::Small` arm: header `"______  "`, then per fret the six
cells, one space, the fret number, a newline. -/
def smallRender (locations : List (Nat × Nat)) : String :=
  "______  \n" ++
    String.join ((List.range' 1 (highestFret locations)).map (fun fret =>
      String.mk (rowSymbols locations fret) ++ " " ++ Nat.repr fret ++ "\n"))

/-- The `Size::Medium` arm. -/
def mediumRender (locations : List (Nat × Nat)) : String :=
  "______\n------\n" ++
    String.join ((List.range' 1 (highestFret locations)).map (fun fret =>
      String.mk (rowSymbols locations fret) ++ "  " ++ Nat.repr fret ++ "\n------\n"))

/-- The six `symbols.next().unwrap()` calls of the `Size::Large` arm:
defined exactly when the symbol string holds at least six characters. -/
def sixSymbols : List Char → Option (Char × Char × Char × Char × Char × Char)
  | a :: b :: c :: d :: e :: f :: _ => some (a, b, c, d, e, f)
  | _ => none

/-- One three-line fret block of the `Size::Large` arm; the `none` arm is
the `unwrap` panic, shown unreachable by the theorem on `sixSymbols`. -/
def largeRow (locations : List (Nat × Nat)) (fret : Nat) : String :=
  match sixSymbols (rowSymbols locations fret) with
  | some (a, b, c, d, e, f) =>
    " | | | | | | \n " ++ String.mk [a] ++ " " ++ String.mk [b] ++ " " ++ String.mk [c] ++
      " " ++ String.mk [d] ++ " " ++ String.mk [e] ++ " " ++ String.mk [f] ++ "  " ++
      Nat.repr fret ++ "\n |-|-|-|-|-| \n"
  | none => ""

/-- The `Size::Large` arm. -/
def largeRender (locations : List (Nat × Nat)) : String :=
  "_|_|_|_|_|_|_\n-|-|-|-|-|-|-\n" ++
    String.join ((List.range' 1 (highestFret locations)).map (fun fret =>
      largeRow locations fret))

/-- `Display for FretDiagram`, by size. -/
def render : Size → List (Nat × Nat) → String
  | .small => smallRender
  | .medium => mediumRender
  | .large => largeRender

/-- The renderer's in-range test on a location's string number, used to
state which locations can ever produce a cell. -/
def onDrawnString (loc : Nat × Nat) : Bool :=
  1 ≤ loc.1 && loc.1 ≤ 6

/-- The `Size::Small` layout exactly as the specification words it: a
header line `"______  "`, then for each fret `1..=H` with
`H = max(5, maximum fret number over the locations)` (`5` for an empty
list), six cell symbols iterated from string 6 on the left to string 1 on
the right — `'*'` exactly when some location matches that string and fret —
then a space, the decimal fret number, and a newline. -/
def smallSpecRender (locations : List (Nat × Nat)) : String :=
  "______  \n" ++
    String.join ((List.range' 1 (max 5 ((locations.map (fun loc => loc.2)).foldr max 0))).map
      (fun fret =>
        String.mk ([6, 5, 4, 3, 2, 1].map (fun string =>
          if ∃ loc ∈ locations, loc.1 = string ∧ loc.2 = fret then '*' else '|')) ++
        " " ++ Nat.repr fret ++ "\n"))

/-! ## Helper lemmas -/

theorem takeList_false (n : Nat) :
    ∀ v, NoteIter.takeList ⟨v, false⟩ n = (List.range n).map (fun i => v + 1 + i) := by
  induction n with
  | zero => intro v; rfl
  | succ n ih =>
    intro v
    show (v + 1) :: NoteIter.takeList ⟨v + 1, false⟩ n = _
    rw [List.range_succ_eq_map, List.map_cons, List.map_map, ih]
    congr 1
    exact List.map_congr_left fun a _ => by simp only [Function.comp_apply]; omega

theorem guitarString_new_eq (openNote numFrets : Nat) :
    GuitarString.new openNote numFrets =
      (List.range (numFrets + 1)).map (fun i => openNote + i) := by
  show openNote :: NoteIter.takeList ⟨openNote, false⟩ numFrets = _
  rw [takeList_false, List.range_succ_eq_map, List.map_cons, List.map_map]
  congr 1
  exact List.map_congr_left fun a _ => by simp only [Function.comp_apply]; omega

/-! ## Claim theorems -/

/-- C2: `Pitch(0) - Interval(1)` — the source's `Sub<Interval>` performs
the unchecked `usize` subtraction `self.value - interval.semitones`, which
yields no `DomainError` value (the source has no error channel there at
all): the operation simply has no result (a panic, or a wraparound in a
release build), here `none`. -/
theorem c2_sub_underflow_no_error : noteSubInterval 0 1 = none := rfl

/-- C7: the string built from open pitch `p0` and fret count `F` holds
exactly `F + 1` pitches, is the first `F + 1` elements of `p0`'s lazy
ascent, and its fret `i` (for `i` in `0..F`, hence in particular fret 0,
the open string) is `p0 + Interval(i)`. -/
theorem c7_string_composition (p0 F : Nat) :
    (GuitarString.new p0 F).length = F + 1 ∧
    GuitarString.new p0 F = (noteIntoIter p0).takeList (F + 1) ∧
    ∀ i, i ≤ F → (GuitarString.new p0 F)[i]? = some (noteAddInterval p0 i) := by
  refine ⟨?_, rfl, ?_⟩
  · rw [guitarString_new_eq]; simp
  · intro i hi
    rw [guitarString_new_eq, List.getElem?_map, List.getElem?_range (by omega)]
    rfl

/-- C8: the standard tuning constant is exactly E2 A2 D3 G3 B3 E4 — pitch
values 28, 33, 38, 43, 47, 52 in ascending order — and the CLI falls back
to it when `--tuning` is absent. -/
theorem c8_standard_tuning_cli :
    standardTuning = [28, 33, 38, 43, 47, 52] ∧ mainTuning none = standardTuning :=
  ⟨rfl, rfl⟩

/-- C9: pitch-minus-pitch subtraction is order independent and yields the
absolute semitone difference of the two pitch values. -/
theorem c9_interval_symmetry (a b : Nat) :
    noteSubNote a b = noteSubNote b a ∧
    noteSubNote a b = ((a : Int) - (b : Int)).natAbs := by
  rcases Nat.lt_trichotomy a b with h | h | h
  · simp only [noteSubNote, Nat.compare_eq_lt.mpr h, Nat.compare_eq_gt.mpr h]
    exact ⟨trivial, by omega⟩
  · subst h
    simp only [noteSubNote, Nat.compare_eq_eq.mpr rfl]
    exact ⟨trivial, by omega⟩
  · simp only [noteSubNote, Nat.compare_eq_gt.mpr h, Nat.compare_eq_lt.mpr h]
    exact ⟨trivial, by omega⟩

/-- C10: the symbol string built for each fret row of the Large layout
always holds exactly six characters, so each of the six
`symbols.next().unwrap()` calls returns a value: the `none` (panic) arm of
`sixSymbols` is unreachable. -/
theorem c10_large_six_symbols (locations : List (Nat × Nat)) (fret : Nat) :
    (rowSymbols locations fret).length = 6 ∧
    (sixSymbols (rowSymbols locations fret)).isSome = true := by
  have h : (List.range' 1 6).reverse = [6, 5, 4, 3, 2, 1] := by decide
  constructor
  · simp [rowSymbols]
  · simp only [rowSymbols, h, List.map_cons, List.map_nil, sixSymbols, Option.isSome_some]

theorem mem_locationsFrets (frets : List Nat) (note sNum : Nat) :
    ∀ base s f, (s, f) ∈ locationsFrets frets note sNum base ↔
      s = sNum ∧ ∃ j, frets[j]? = some note ∧ f = base + j := by
  induction frets with
  | nil => intro base s f; simp [locationsFrets]
  | cons fr rest ih =>
    intro base s f
    simp only [locationsFrets, List.mem_append, ih]
    constructor
    · rintro (hmem | ⟨rfl, j, hj, rfl⟩)
      · by_cases h : fr = note
        · simp [h] at hmem
          obtain ⟨rfl, rfl⟩ := hmem
          exact ⟨rfl, 0, by simp [h], by omega⟩
        · simp [h] at hmem
      · exact ⟨rfl, j + 1, by simpa using hj, by omega⟩
    · rintro ⟨rfl, j, hj, rfl⟩
      cases j with
      | zero =>
        left
        have h : fr = note := by simpa using hj
        simp [h]
      | succ j =>
        right
        exact ⟨rfl, j, by simpa using hj, by omega⟩

theorem mem_locationsStrings (strings : List (List Nat)) (note : Nat) :
    ∀ base s f, (s, f) ∈ locationsStrings strings note base ↔
      ∃ j str, strings[j]? = some str ∧ s = base + j + 1 ∧ str[f]? = some note := by
  induction strings with
  | nil => intro base s f; simp [locationsStrings]
  | cons st rest ih =>
    intro base s f
    simp only [locationsStrings, List.mem_append, ih, mem_locationsFrets]
    constructor
    · rintro (⟨rfl, j, hj, rfl⟩ | ⟨j, str, hstr, rfl, hf⟩)
      · exact ⟨0, st, by simp, by omega, by simpa using hj⟩
      · exact ⟨j + 1, str, by simpa using hstr, by omega, hf⟩
    · rintro ⟨j, str, hstr, rfl, hf⟩
      cases j with
      | zero =>
        left
        have h : st = str := by simpa using hstr
        exact ⟨by omega, f, by rw [h]; exact hf, by omega⟩
      | succ j =>
        right
        exact ⟨j, str, by simpa using hstr, by omega, hf⟩

theorem locationsFrets_shape (frets : List Nat) (note sNum : Nat) :
    ∀ base, ∀ x ∈ locationsFrets frets note sNum base, x.1 = sNum ∧ base ≤ x.2 := by
  induction frets with
  | nil => intro base x hx; simp [locationsFrets] at hx
  | cons fr rest ih =>
    intro base x hx
    simp only [locationsFrets, List.mem_append] at hx
    rcases hx with hx | hx
    · rcases x with ⟨a, b⟩
      by_cases h : fr = note
      · simp [h] at hx
        obtain ⟨rfl, rfl⟩ := hx
        exact ⟨rfl, by omega⟩
      · simp [h] at hx
    · have := ih (base + 1) x hx
      exact ⟨this.1, by omega⟩

theorem locationsFrets_pairwise (frets : List Nat) (note sNum : Nat) :
    ∀ base, (locationsFrets frets note sNum base).Pairwise
      (fun a b => a.1 < b.1 ∨ (a.1 = b.1 ∧ a.2 < b.2)) := by
  induction frets with
  | nil => intro base; simp [locationsFrets]
  | cons fr rest ih =>
    intro base
    simp only [locationsFrets]
    refine List.pairwise_append.mpr ⟨?_, ih (base + 1), ?_⟩
    · split <;> simp
    · intro a ha b hb
      have hb' := locationsFrets_shape rest note sNum (base + 1) b hb
      have ha' : a = (sNum, base) := by
        revert ha
        split
        · simp
        · simp
      right
      rw [ha']
      exact ⟨hb'.1.symm, by simpa using hb'.2⟩

theorem locationsStrings_shape (strings : List (List Nat)) (note : Nat) :
    ∀ base, ∀ x ∈ locationsStrings strings note base, base + 1 ≤ x.1 := by
  induction strings with
  | nil => intro base x hx; simp [locationsStrings] at hx
  | cons st rest ih =>
    intro base x hx
    simp only [locationsStrings, List.mem_append] at hx
    rcases hx with hx | hx
    · have := locationsFrets_shape st note (base + 1) 0 x hx
      omega
    · have := ih (base + 1) x hx
      omega

theorem locationsStrings_pairwise (strings : List (List Nat)) (note : Nat) :
    ∀ base, (locationsStrings strings note base).Pairwise
      (fun a b => a.1 < b.1 ∨ (a.1 = b.1 ∧ a.2 < b.2)) := by
  induction strings with
  | nil => intro base; simp [locationsStrings]
  | cons st rest ih =>
    intro base
    simp only [locationsStrings]
    refine List.pairwise_append.mpr ⟨locationsFrets_pairwise st note (base + 1) 0,
      ih (base + 1), ?_⟩
    intro a ha b hb
    have ha' := locationsFrets_shape st note (base + 1) 0 a ha
    have hb' := locationsStrings_shape rest note (base + 1) b hb
    left
    omega

/-- C1: on `Guitar::new(F, tuning)`, `locations(q)` returns exactly the
pairs `(s, f)` such that the internal string numbered `s` (1-based; the
construction reverses the tuning, so string 1 comes from the tuning's last,
highest-pitched entry) holds exactly the pitch `q` at fret `f`; the pairs
are listed with string numbers ascending and, within a string, fret numbers
ascending.  An empty tuning or a pitch on no string yields the empty
list, since nothing then satisfies the right-hand side. -/
theorem c1_locations_exact (F : Nat) (tuning : List Nat) (q : Nat) :
    (∀ s f, (s, f) ∈ Guitar.locations (Guitar.new F tuning) q ↔
        1 ≤ s ∧ ∃ str, (Guitar.new F tuning)[s - 1]? = some str ∧ str[f]? = some q) ∧
    (Guitar.locations (Guitar.new F tuning) q).Pairwise
      (fun a b => a.1 < b.1 ∨ (a.1 = b.1 ∧ a.2 < b.2)) ∧
    ∀ i : Nat, (Guitar.new F tuning)[i]? =
        (tuning.reverse[i]?).map (fun o => GuitarString.new o F) := by
  refine ⟨?_, locationsStrings_pairwise _ q 0, ?_⟩
  · intro s f
    rw [Guitar.locations, mem_locationsStrings]
    constructor
    · rintro ⟨j, str, hstr, rfl, hf⟩
      exact ⟨by omega, str, by simpa using hstr, hf⟩
    · rintro ⟨hs, str, hstr, hf⟩
      exact ⟨s - 1, str, by simpa using hstr, by omega, hf⟩
  · intro i
    rw [Guitar.new]
    exact List.getElem?_map _ _ _

theorem highestFret_eq_max (locations : List (Nat × Nat)) :
    highestFret locations = max 5 ((locations.map (fun loc => loc.2)).foldr max 0) := by
  have key : ∀ (l : List (Nat × Nat)) (a : Nat),
      l.foldl (fun acc fbl => max fbl.2 acc) a =
        max a ((l.map (fun loc => loc.2)).foldr max 0) := by
    intro l
    induction l with
    | nil => intro a; simp
    | cons x xs ih =>
      intro a
      simp only [List.foldl_cons, List.map_cons, List.foldr_cons, ih]
      omega
  exact key locations 5

theorem cellChar_eq_exists (locations : List (Nat × Nat)) (fret string : Nat) :
    cellChar locations fret string =
      if ∃ loc ∈ locations, loc.1 = string ∧ loc.2 = fret then '*' else '|' := by
  have hiff : (locations.any (fun loc => loc.2 = fret && loc.1 = string) = true) ↔
      ∃ loc ∈ locations, loc.1 = string ∧ loc.2 = fret := by
    rw [List.any_eq_true]
    constructor
    · rintro ⟨loc, hmem, hl⟩
      simp only [Bool.and_eq_true, decide_eq_true_eq] at hl
      exact ⟨loc, hmem, hl.2, hl.1⟩
    · rintro ⟨loc, hmem, h1, h2⟩
      exact ⟨loc, hmem, by simp [h1, h2]⟩
  unfold cellChar
  by_cases h : ∃ loc ∈ locations, loc.1 = string ∧ loc.2 = fret
  · rw [if_pos (hiff.mpr h), if_pos h]
  · rw [if_neg (fun hc => h (hiff.mp hc)), if_neg h]

/-- C5: the Small rendering is byte for byte the header line `"______  "`
with a newline, then for each fret 1..H — `H = max(5, maximum fret number
over the locations)`, 5 for an empty list — six cell symbols with no
interior spacing iterated from string 6 on the left to string 1 on the
right (`'*'` exactly when some location matches that string and fret),
one space, the decimal fret number, and a newline. -/
theorem c5_small_layout (locations : List (Nat × Nat)) :
    smallRender locations = smallSpecRender locations := by
  unfold smallRender smallSpecRender
  rw [highestFret_eq_max]
  have hcells : ∀ fret, rowSymbols locations fret =
      [6, 5, 4, 3, 2, 1].map (fun string =>
        if ∃ loc ∈ locations, loc.1 = string ∧ loc.2 = fret then '*' else '|') := by
    intro fret
    rw [rowSymbols, show (List.range' 1 6).reverse = [6, 5, 4, 3, 2, 1] from by decide]
    exact List.map_congr_left fun string _ => cellChar_eq_exists locations fret string
  simp only [hcells]

theorem cellChar_filter (locations : List (Nat × Nat)) (fret string : Nat)
    (h1 : 1 ≤ string) (h6 : string ≤ 6) :
    cellChar (locations.filter onDrawnString) fret string =
      cellChar locations fret string := by
  have hany : (locations.filter onDrawnString).any
        (fun loc => loc.2 = fret && loc.1 = string) =
      locations.any (fun loc => loc.2 = fret && loc.1 = string) := by
    rw [Bool.eq_iff_iff, List.any_eq_true, List.any_eq_true]
    constructor
    · rintro ⟨loc, hmem, hl⟩
      exact ⟨loc, (List.mem_filter.mp hmem).1, hl⟩
    · rintro ⟨loc, hmem, hl⟩
      refine ⟨loc, List.mem_filter.mpr ⟨hmem, ?_⟩, hl⟩
      simp only [Bool.and_eq_true, decide_eq_true_eq] at hl
      unfold onDrawnString
      simp only [Bool.and_eq_true, decide_eq_true_eq]
      omega
  unfold cellChar
  rw [hany]

theorem rowSymbols_filter (locations : List (Nat × Nat)) (fret : Nat) :
    rowSymbols (locations.filter onDrawnString) fret = rowSymbols locations fret := by
  unfold rowSymbols
  refine List.map_congr_left fun string hs => ?_
  rw [List.mem_reverse, List.mem_range'] at hs
  obtain ⟨i, hi, rfl⟩ := hs
  exact cellChar_filter locations fret _ (by omega) (by omega)

set_option maxHeartbeats 1000000 in
/-- C6 as stated is false: the location `(7, 6)` refers to a string outside
1..6, yet removing it changes the Small rendering, because `highest_fret`
folds over every location and `(7, 6)` raises the highest drawn fret from
5 to 6. -/
theorem c6_counterexample :
    ¬ (render Size.small [(7, 6)] =
        render Size.small (List.filter onDrawnString [(7, 6)])) := by decide

/-- C6 amended: a location whose string number lies outside 1..6 never
produces a `'*'` cell, so for every size, rendering a location list is
byte-identical to rendering its sublist of in-range locations whenever the
highest-fret selection (which folds over all locations, out-of-range ones
included) is unchanged by the removal. -/
theorem c6_out_of_range_strings (size : Size) (locations : List (Nat × Nat))
    (h : highestFret (locations.filter onDrawnString) = highestFret locations) :
    render size (locations.filter onDrawnString) = render size locations := by
  cases size with
  | small =>
    show smallRender _ = smallRender _
    unfold smallRender
    rw [h]
    congr 1
    refine congrArg String.join (List.map_congr_left fun fret _ => ?_)
    rw [rowSymbols_filter]
  | medium =>
    show mediumRender _ = mediumRender _
    unfold mediumRender
    rw [h]
    congr 1
    refine congrArg String.join (List.map_congr_left fun fret _ => ?_)
    rw [rowSymbols_filter]
  | large =>
    show largeRender _ = largeRender _
    unfold largeRender
    rw [h]
    have hrow : ∀ fret, largeRow (locations.filter onDrawnString) fret =
        largeRow locations fret := by
      intro fret
      unfold largeRow
      rw [rowSymbols_filter]
    simp only [hrow]

/-- Witness for the amended C6 at a concrete input: `(9, 3)` is out of
range and does not move the highest fret, so dropping it leaves the
rendering unchanged. -/
theorem c6_out_of_range_strings_witness :
    render Size.small (List.filter onDrawnString [(9, 3), (2, 4)]) =
      render Size.small [(9, 3), (2, 4)] :=
  c6_out_of_range_strings Size.small [(9, 3), (2, 4)] (by decide)

set_option maxHeartbeats 1000000 in
/-- C3: for each of the twelve names (pitch-class index `k < 12`) and each
octave `o` in 0..10, parsing the default display of the pitch with value
`k + 12 * o` yields back exactly that pitch. -/
theorem c3_parse_display_round_trip :
    ∀ k < 12, ∀ o < 11, noteFromStr (noteDisplay (k + 12 * o)) = some (k + 12 * o) := by
  decide

/-- Witness for C3 at the concrete pitch Db3 (value 37). -/
theorem c3_parse_display_round_trip_witness :
    noteFromStr (noteDisplay (1 + 12 * 3)) = some (1 + 12 * 3) :=
  c3_parse_display_round_trip 1 (by decide) 3 (by decide)

set_option maxHeartbeats 4000000 in
theorem altNoteName_eq_longest (s : List Char) : altNoteName s = longestNoteName s := by
  rcases s with _ | ⟨a, _ | ⟨b, rest⟩⟩
  · decide
  · by_cases hC : a = 'C' <;> by_cases hD : a = 'D' <;> by_cases hE : a = 'E' <;>
      by_cases hF : a = 'F' <;> by_cases hG : a = 'G' <;> by_cases hA : a = 'A' <;>
      by_cases hB : a = 'B' <;>
      simp_all [altNoteName, longestNoteName, noteTags, List.findSome?_cons, List.filter_cons]
  · by_cases hC : a = 'C' <;> by_cases hD : a = 'D' <;> by_cases hE : a = 'E' <;>
      by_cases hF : a = 'F' <;> by_cases hG : a = 'G' <;> by_cases hA : a = 'A' <;>
      by_cases hB : a = 'B' <;> by_cases hb : b = 'b' <;>
      simp_all [altNoteName, longestNoteName, noteTags, List.findSome?_cons, List.filter_cons]

/-- C4: `Note::from_str` coincides on every input with the grammar parse
`<name><octave?>` in which the name is matched by longest prefix among the
twelve flats-only tokens (so "Db" binds before "D") and the optional
remainder must be a valid non-negative decimal integer; together with the
spec's concrete anchors, including the failing sharps/non-existent flats. -/
theorem c4_parse_characterisation :
    (∀ s : List Char, noteFromStr s = specNoteParse s) ∧
    noteFromStr "C0".toList = some 0 ∧
    noteFromStr "Db3".toList = some 37 ∧
    noteFromStr "Bb10".toList = some 130 ∧
    noteFromStr "Ab".toList = some 8 ∧
    noteFromStr "Cb2".toList = none ∧
    noteFromStr "Gb-2".toList = none := by
  refine ⟨fun s => ?_, by decide, by decide, by decide, by decide, by decide, by decide⟩
  rw [noteFromStr, specNoteParse, altNoteName_eq_longest]
